import Mathlib

/-!
# Verification of the agent-conversation streaming reducer

Shallow embedding of `frontend/src/lib/agent-store.ts`: the streaming-to-state
reducer that materializes SSE events into a nested
conversation → thread → task → item view model, with a secondary per-kind
"sections" index and a step-template heuristic for tool-call labels.

Modelling conventions:

* JavaScript objects used as string-keyed maps (`Record<string, T>`) are
  modelled as insertion-ordered association lists `List (String × T)`;
  `Object.values` is the list of second components in insertion order.
* A payload `content` string is modelled by `Content`: `Content.raw s`
  stands for a string that `JSON.parse` rejects, and `Content.ser ...`
  stands for the `JSON.stringify` serialization of a record with the given
  optional fields (`none` models an absent — or, at the read sites of this
  module, equivalently `null` — field) plus a list of opaque extra fields
  that the module itself never writes but faithfully carries through object
  spreads.  `JSON.parse` is modelled by `Content.parse`, `JSON.stringify`
  by `Content.ofRecord`.  String concatenation of contents (`+=` in
  `addOrUpdateItem`) is modelled by `Content.concat`: concatenating with an
  empty raw string is the identity (as in JS), and any other concatenation
  yields unparsed text (a serialized object text concatenated with further
  non-empty text is never a single well-formed JSON value again).
* The `mutative` copy-on-write wrapper is the identity in a pure model: an
  event that mutates nothing returns the input snapshot itself, which is the
  pure rendering of reference equality of the returned store.
-/

/-- Model of a payload `content` string.  `raw s` is a string rejected by
`JSON.parse`; `ser c i t l ct e` is the `JSON.stringify` serialization of the
record `{content: c, isComplete: i, tool_name: t, step_label: l,
component_type: ct, ...e}` where a `none` field is absent. -/
inductive Content where
  | raw (s : String)
  | ser (content : Option Content) (isComplete : Option Bool)
        (tool_name : Option String) (step_label : Option String)
        (component_type : Option String) (extra : List (String × String))
deriving Repr

/-- A payload object (`data.payload` of an event, or the `payload` field of a
stored item).  The module reads only these fields; everything else an event
may carry is kept opaquely in `extra`. -/
structure Payload where
  content : Option Content := none
  isComplete : Option Bool := none
  tool_name : Option String := none
  step_label : Option String := none
  component_type : Option String := none
  extra : List (String × String) := []
deriving Repr

/-- `JSON.parse` on a payload content string: fails on raw text, returns the
record's fields on a serialization. -/
def Content.parse : Content → Option Payload
  | .raw _ => none
  | .ser c i t l ct e =>
      some { content := c, isComplete := i, tool_name := t, step_label := l,
             component_type := ct, extra := e }

/-- `JSON.stringify` of a record, as a `Content`. -/
def Content.ofRecord (p : Payload) : Content :=
  .ser p.content p.isComplete p.tool_name p.step_label p.component_type p.extra

/-- Escape a string for inclusion in JSON text (quote and backslash). -/
def escapeJson (s : String) : String :=
  s.data.foldr
    (fun c acc =>
      (if c = '"' then "\\\"" else if c = '\\' then "\\\\" else String.singleton c) ++ acc)
    ""

/-- The JSON text a `Content` stands for: raw text itself, or the canonical
serialization of the record. -/
def Content.denote : Content → String
  | .raw s => s
  | .ser c i t l ct e =>
      let contentField : List String :=
        match c with
        | some cc => ["\"content\":\"" ++ escapeJson cc.denote ++ "\""]
        | none => []
      let rest : List String :=
        (match i with
         | some b => ["\"isComplete\":" ++ (if b then "true" else "false")]
         | none => []) ++
        (match t with
         | some s => ["\"tool_name\":\"" ++ escapeJson s ++ "\""]
         | none => []) ++
        (match l with
         | some s => ["\"step_label\":\"" ++ escapeJson s ++ "\""]
         | none => []) ++
        (match ct with
         | some s => ["\"component_type\":\"" ++ escapeJson s ++ "\""]
         | none => []) ++
        e.map (fun f => "\"" ++ escapeJson f.1 ++ "\":\"" ++ escapeJson f.2 ++ "\"")
      "\x7b" ++ String.intercalate "," (contentField ++ rest) ++ "\x7d"

/-- JS string concatenation on payload contents.  Concatenation with the empty
string is the identity; any other concatenation of a serialized-object text
with further non-empty text is no longer a single well-formed JSON value, so
the result is unparsed text. -/
def Content.concat : Content → Content → Content
  | .raw "", c => c
  | c, .raw "" => c
  | a, b => .raw (a.denote ++ b.denote)

/-- Event metadata; the module reads only `task_title`. -/
structure Metadata where
  task_title : Option String := none
deriving Repr

/-- A stored chat item (`ChatItem`). -/
structure ChatItem where
  item_id : String
  conversation_id : String
  thread_id : String
  task_id : String
  component_type : Option String := none
  role : Option String := none
  payload : Option Payload := none
  metadata : Option Metadata := none
deriving Repr

/-- The `data` record of an SSE event. -/
structure EventData where
  item_id : String
  conversation_id : String
  thread_id : String
  task_id : String
  role : Option String := none
  payload : Payload := {}
  metadata : Option Metadata := none
deriving Repr

/-- An SSE event: discriminator plus data. -/
structure SSEData where
  event : String
  data : EventData
deriving Repr

/-- Merge mode of `addOrUpdateItem` (the `event` parameter in the source:
`"append" | "replace" | "append-reasoning"`). -/
inductive MergeMode where
  | append
  | replace
  | appendReasoning
deriving Repr, DecidableEq

/-- `TaskView`: an ordered sequence of items. -/
structure TaskView where
  items : List ChatItem
deriving Repr

/-- `ThreadView`: tasks keyed by `task_id`, insertion-ordered. -/
structure ThreadView where
  tasks : List (String × TaskView)
deriving Repr

/-- `ConversationView`: threads keyed by `thread_id`, plus the flat
per-component-kind sections index (each entry is a `ThreadView`, i.e., a
task container keyed by `task_id`). -/
structure ConversationView where
  threads : List (String × ThreadView)
  sections : List (String × ThreadView)
deriving Repr

/-- `AgentConversationsStore`: conversations keyed by `conversation_id`. -/
abbrev AgentConversationsStore := List (String × ConversationView)

def emptyTask : TaskView := { items := [] }

def emptyThread : ThreadView := { tasks := [] }

def emptyConversation : ConversationView := { threads := [], sections := [] }

/-! ## Insertion-ordered string-keyed maps (JS object semantics) -/

/-- `m[k]` on a JS object with string keys. -/
def lookupEntry {α : Type} (m : List (String × α)) (k : String) : Option α :=
  match m.find? (fun e => e.1 == k) with
  | some e => some e.2
  | none => none

/-- `m[k] = v` on a JS object: overwrite in place if the key exists,
otherwise append at the end (insertion order). -/
def setEntry {α : Type} : List (String × α) → String → α → List (String × α)
  | [], k, v => [(k, v)]
  | e :: rest, k, v => if e.1 = k then (k, v) :: rest else e :: setEntry rest k v

/-- `m[k] ??= d` followed by a mutation `f` of `m[k]`. -/
def modifyEntry {α : Type} (m : List (String × α)) (k : String) (d : α) (f : α → α) :
    List (String × α) :=
  setEntry m k (f ((lookupEntry m k).getD d))

/-- `m[k] ??= d` alone. -/
def ensureEntry {α : Type} (m : List (String × α)) (k : String) (d : α) :
    List (String × α) :=
  if (lookupEntry m k).isSome then m else m ++ [(k, d)]

/-- `delete m[k]`. -/
def eraseEntry {α : Type} (m : List (String × α)) (k : String) : List (String × α) :=
  m.filter (fun e => !(e.1 == k))

/-! ## Configuration constants -/

def ANALYSIS_STEP_TITLES : List String :=
  ["构建分析策略任务规划",
   "基本面与财务健康度调研",
   "基本面与股基本面分析",
   "多周期技术形态与筹码分布研究",
   "市场情绪与资金动态监控",
   "实时资讯与重大事项搜寻"]

def ANALYSIS_OVERFLOW_STEP_TITLE : String := "构建分析策略"

def NEWS_STEP_TITLES : List String :=
  ["检索今日全球科技重大新闻",
   "检索今日国内科技行业及 A 股科技板块动态",
   "分析科技行业市场情绪与资金流向"]

inductive StepTemplateType where
  | analysis
  | news
deriving Repr, DecidableEq

def STEP_TEMPLATE_START_TITLES : List String :=
  [ANALYSIS_STEP_TITLES.headD "", NEWS_STEP_TITLES.headD ""]

/-- The alternation literals of `NEWS_QUERY_MARKER_REGEX`
(`/新闻|快讯|头条|今日科技|科技新闻|财经新闻|实时资讯/i`); the regex matches
iff one of them occurs as a substring. -/
def NEWS_QUERY_MARKERS : List String :=
  ["新闻", "快讯", "头条", "今日科技", "科技新闻", "财经新闻", "实时资讯"]

/-- Modelled from the spec: the fixed enumeration of section-worthy component
kinds, `AGENT_SECTION_COMPONENT_TYPE` imported from `@/constants/agent`, whose
definition file is not among the sources.  The spec (§3, §6) fixes it as an
external configuration constant of "distinguished item kinds"; `report` is the
one kind the repository's section renderer handles. -/
def AGENT_SECTION_COMPONENT_TYPE : List String := ["report"]

/-! ## Regex models

`extractCompanyNameFromText` uses two JS regexes.  They are modelled by
direct matchers with JS semantics: leftmost starting position first, and the
lazy quantifier `{1,30}?` tries shorter bodies first.  The character classes
are disjoint from the delimiters that follow them wherever the JS engine
would backtrack, so greedy `\s*`/`\d{4,6}` sub-matches are modelled by
maximal munch. -/

def isCJKChar (c : Char) : Bool :=
  0x4e00 ≤ c.toNat && c.toNat ≤ 0x9fff

def isAsciiLetter (c : Char) : Bool :=
  (0x41 ≤ c.toNat && c.toNat ≤ 0x5a) || (0x61 ≤ c.toNat && c.toNat ≤ 0x7a)

/-- First character of the company-name pattern: `[一-鿿A-Za-z]`. -/
def isNameStartChar (c : Char) : Bool :=
  isCJKChar c || isAsciiLetter c

/-- The `\s` class (ASCII part). -/
def isSpaceChar (c : Char) : Bool :=
  c = ' ' || c = '\t' || c = '\n' || c = '\r' || c.toNat = 0x0b || c.toNat = 0x0c

/-- Body character of the company-name pattern:
`[一-鿿A-Za-z0-9·\-\s]`. -/
def isNameBodyChar (c : Char) : Bool :=
  isNameStartChar c || c.isDigit || c = '·' || c = '-' || isSpaceChar c

/-- Tail of the code pattern after the captured name:
`\s*[（(]\s*\d{4,6}\s*[)）]`. -/
def matchCodeTail (cs : List Char) : Bool :=
  match cs.dropWhile isSpaceChar with
  | [] => false
  | c :: rest =>
    if c = '（' || c = '(' then
      let afterSpace := rest.dropWhile isSpaceChar
      let digits := afterSpace.takeWhile Char.isDigit
      let afterDigits := afterSpace.dropWhile Char.isDigit
      if 4 ≤ digits.length && digits.length ≤ 6 then
        match afterDigits.dropWhile isSpaceChar with
        | c2 :: _ => c2 = ')' || c2 = '）'
        | [] => false
      else false
    else false

/-- Lazy `{1,30}?` body for the code pattern: the shortest body length
`1 ≤ len ≤ 30` of body characters after which the code tail matches. -/
def codeCaptureLen (rest : List Char) : Option Nat :=
  (List.range 30).findSome? fun j =>
    let len := j + 1
    let body := rest.take len
    if body.length == len && body.all isNameBodyChar && matchCodeTail (rest.drop len) then
      some len
    else none

/-- Try the code pattern anchored at the head of `cs`; returns the capture
(group 1: name-start char plus body). -/
def matchCodeAt (cs : List Char) : Option String :=
  match cs with
  | [] => none
  | c0 :: rest =>
    if isNameStartChar c0 then
      match codeCaptureLen rest with
      | some len => some (String.mk (c0 :: rest.take len))
      | none => none
    else none

/-- Leftmost match of the code pattern (JS `String.match` without `g`). -/
def firstCodeMatch : List Char → Option String
  | [] => none
  | c :: rest =>
    match matchCodeAt (c :: rest) with
    | some s => some s
    | none => firstCodeMatch rest

/-- The corporate-entity suffix alternation, in the order the regex tries it:
`股份有限公司|有限公司|集团|控股|科技|实业|银行|证券|制药|能源|汽车|传媒`. -/
def COMPANY_SUFFIXES : List String :=
  ["股份有限公司", "有限公司", "集团", "控股", "科技", "实业",
   "银行", "证券", "制药", "能源", "汽车", "传媒"]

/-- First suffix alternative that is a prefix of `cs`. -/
def suffixAt (cs : List Char) : Option (List Char) :=
  COMPANY_SUFFIXES.findSome? fun suf =>
    if suf.data.isPrefixOf cs then some suf.data else none

/-- Lazy `{1,30}?` body for the suffix pattern: shortest body after which a
corporate suffix follows; returns body length and the matched suffix. -/
def suffixCaptureLen (rest : List Char) : Option (Nat × List Char) :=
  (List.range 30).findSome? fun j =>
    let len := j + 1
    let body := rest.take len
    if body.length == len && body.all isNameBodyChar then
      match suffixAt (rest.drop len) with
      | some suf => some (len, suf)
      | none => none
    else none

/-- Try the suffix pattern anchored at the head of `cs`. -/
def matchSuffixAt (cs : List Char) : Option String :=
  match cs with
  | [] => none
  | c0 :: rest =>
    if isNameStartChar c0 then
      match suffixCaptureLen rest with
      | some (len, suf) => some (String.mk (c0 :: (rest.take len ++ suf)))
      | none => none
    else none

/-- Leftmost match of the suffix pattern. -/
def firstSuffixMatch : List Char → Option String
  | [] => none
  | c :: rest =>
    match matchSuffixAt (c :: rest) with
    | some s => some s
    | none => firstSuffixMatch rest

/-- Model of JS `String.prototype.trim`: strip leading and trailing
whitespace (stated over the character list so it reduces in the kernel). -/
def jsTrim (s : String) : String :=
  String.mk (((s.data.dropWhile Char.isWhitespace).reverse.dropWhile
    Char.isWhitespace).reverse)

/-- JS truthiness filter on an optional string: the empty string is falsy. -/
def truthyString : Option String → Option String
  | some "" => none
  | o => o

/-- `extractCompanyNameFromText`. -/
def extractCompanyNameFromText (text : String) : Option String :=
  let normalized := jsTrim text
  if normalized = "" then none
  else
    match truthyString (firstCodeMatch normalized.data) with
    | some m => some (jsTrim m)
    | none =>
      match truthyString (firstSuffixMatch normalized.data) with
      | some m => some (jsTrim m)
      | none => none

/-- Substring test over character lists. -/
def hasSubstring : List Char → List Char → Bool
  | [], pat => pat.isEmpty
  | c :: rest, pat => pat.isPrefixOf (c :: rest) || hasSubstring rest pat

/-- `NEWS_QUERY_MARKER_REGEX.test`. -/
def newsMarkerTest (s : String) : Bool :=
  NEWS_QUERY_MARKERS.any fun m => hasSubstring s.data m.data

/-! ## Thread inspection helpers -/

/-- `hasContent`: the item has a `payload` with a `content` field. -/
def hasContent (item : ChatItem) : Bool :=
  match item.payload with
  | some p => p.content.isSome
  | none => false

/-- `item.payload.content`, defined on items that pass `hasContent`. -/
def itemContent (item : ChatItem) : Content :=
  ((item.payload.bind Payload.content).getD (.raw ""))

/-- `getThreadItems`: all items of all tasks of a thread, in
`Object.values` (insertion) order. -/
def getThreadItems (thread : ThreadView) : List ChatItem :=
  thread.tasks.flatMap fun e => e.2.items

/-- `isPlanningAnchorTool`. -/
def isPlanningAnchorTool (item : ChatItem) : Bool :=
  if item.component_type ≠ some "tool_call" || !hasContent item then
    false
  else
    match (itemContent item).parse with
    | some parsed =>
        parsed.tool_name == some "generate_execution_plan" ||
        STEP_TEMPLATE_START_TITLES.contains (parsed.step_label.getD "")
    | none => false

/-- `getPlanningToolItems`: the suffix of the thread's tool-call items
starting at the last planning anchor (empty when no anchor exists). -/
def getPlanningToolItems (thread : ThreadView) : List ChatItem :=
  let allToolItems :=
    (getThreadItems thread).filter fun it => it.component_type == some "tool_call"
  match allToolItems.reverse.findIdx? isPlanningAnchorTool with
  | some j => allToolItems.drop (allToolItems.length - 1 - j)
  | none => []

/-- `getToolNameFromItem`. -/
def getToolNameFromItem (item : ChatItem) : Option String :=
  if item.component_type ≠ some "tool_call" || !hasContent item then
    none
  else
    match (itemContent item).parse with
    | some parsed => parsed.tool_name
    | none => none

/-- `getStepLabelFromItem`. -/
def getStepLabelFromItem (item : ChatItem) : Option String :=
  if item.component_type ≠ some "tool_call" || !hasContent item then
    none
  else
    match (itemContent item).parse with
    | some parsed => parsed.step_label
    | none => none

/-- The user-authored contents of a thread (`role === "user"` with content). -/
def userContentsOf (thread : ThreadView) : List Content :=
  ((getThreadItems thread).filter fun it =>
      it.role == some "user" && hasContent it).map itemContent

/-- `detectStepTemplateInThread`. -/
def detectStepTemplateInThread (thread : ThreadView) : StepTemplateType :=
  let userContents := userContentsOf thread
  if userContents.any (fun c => newsMarkerTest c.denote) then
    .news
  else
    let planningToolItems := getPlanningToolItems thread
    let planningToolNames :=
      planningToolItems.filterMap fun it => truthyString (getToolNameFromItem it)
    let hasNewsTool := planningToolNames.any fun name =>
      ["web_search", "get_breaking_news", "get_financial_news"].contains name
    let hasResearchTool := planningToolNames.any fun name =>
      ["fetch_ashare_filings", "fetch_us_filing_sections"].contains name
    if hasNewsTool && !hasResearchTool then .news else .analysis

/-- `detectCompanyNameInThread`. -/
def detectCompanyNameInThread (thread : ThreadView) (fallbackTaskTitle : Option String) :
    Option String :=
  let userContents := userContentsOf thread
  match userContents.findSome? (fun c => truthyString (extractCompanyNameFromText c.denote)) with
  | some name => some name
  | none =>
    match truthyString fallbackTaskTitle with
    | some t => extractCompanyNameFromText t
    | none => none

/-- `getToolStepOrderInThread`. -/
def getToolStepOrderInThread (thread : ThreadView) (itemId : String)
    (currentToolName : Option String) : Nat :=
  let threadToolItems := getPlanningToolItems thread
  if threadToolItems.length = 0 then
    if currentToolName = some "generate_execution_plan" then 1 else 0
  else
    match threadToolItems.findIdx? (fun it =>
        it.component_type == some "tool_call" && it.item_id == itemId) with
    | some existingIndex => existingIndex + 1
    | none => threadToolItems.length + 1

/-- `buildPlannedStepLabel`.  A `stepOrder` of `0` models the JS index `-1`
(no title at a negative index). -/
def buildPlannedStepLabel (stepOrder : Nat) (companyName : Option String)
    (templateType : StepTemplateType) : Option String :=
  let templateTitles :=
    match templateType with
    | .news => NEWS_STEP_TITLES
    | .analysis => ANALYSIS_STEP_TITLES
  let indexed : Option String :=
    match stepOrder with
    | 0 => none
    | n + 1 => templateTitles.get? n
  let baseTitle : Option String :=
    match indexed with
    | some t => some t
    | none =>
      match templateType with
      | .analysis => some ANALYSIS_OVERFLOW_STEP_TITLE
      | .news => none
  match baseTitle with
  | none => none
  | some baseTitle =>
    match templateType, truthyString companyName with
    | .analysis, some name =>
        if 2 ≤ stepOrder then some (baseTitle ++ "（" ++ name ++ "）")
        else some baseTitle
    | _, _ => some baseTitle

/-- `shouldApplyAnalysisStepTemplate`. -/
def shouldApplyAnalysisStepTemplate (thread : ThreadView)
    (currentToolName : Option String) : Bool :=
  if currentToolName = some "generate_execution_plan" then
    true
  else
    match (getPlanningToolItems thread).head? with
    | none => false
    | some firstToolItem =>
      let firstToolName := getToolNameFromItem firstToolItem
      let firstStepLabel := getStepLabelFromItem firstToolItem
      firstToolName == some "generate_execution_plan" ||
      STEP_TEMPLATE_START_TITLES.contains (firstToolName.getD "") ||
      STEP_TEMPLATE_START_TITLES.contains (firstStepLabel.getD "")

/-! ## Store operations -/

/-- The thread/task part of `ensurePath` inside one conversation:
`conversation.threads[thread_id] ??= {tasks: {}}` and
`...tasks[task_id] ??= {items: []}`. -/
def ensureThreadTask (conversation : ConversationView) (threadId taskId : String) :
    ConversationView :=
  { conversation with
    threads := modifyEntry conversation.threads threadId emptyThread
      (fun th => { th with tasks := ensureEntry th.tasks taskId emptyTask }) }

/-- `isSectionWorthy`: the guard
`componentType && AGENT_SECTION_COMPONENT_TYPE.includes(componentType)`
(`undefined` and the empty string are falsy). -/
def isSectionWorthy (componentType : Option String) : Bool :=
  match componentType with
  | some s => s ≠ "" && AGENT_SECTION_COMPONENT_TYPE.contains s
  | none => false

/-- `markReasoningComplete`. -/
def markReasoningComplete (task : TaskView) (itemId : String) : TaskView :=
  match task.items.findIdx? (fun item => item.item_id == itemId) with
  | none => task
  | some existingIndex =>
    match task.items.get? existingIndex with
    | none => task
    | some item =>
      if hasContent item then
        let newContent :=
          match (itemContent item).parse with
          | some parsed => Content.ofRecord { parsed with isComplete := some true }
          | none =>
              Content.ofRecord { content := some (itemContent item), isComplete := some true }
        { items := task.items.set existingIndex (setItemContent item newContent) }
      else task
where
  /-- `existingItem.payload.content = c`: rewrite only the payload content,
  leaving every other field alone (unreachable fallback: an item without a
  payload is returned unchanged, the source guards with `hasContent`). -/
  setItemContent (it : ChatItem) (c : Content) : ChatItem :=
    match it.payload with
    | some p => { it with payload := some { p with content := some c } }
    | none => it

/-- `markAllReasoningComplete`. -/
def markAllReasoningComplete (task : TaskView) : TaskView :=
  { items := task.items.map fun item =>
      if item.component_type == some "reasoning" && hasContent item then
        match (itemContent item).parse with
        | some parsed =>
          if !(parsed.isComplete.getD false) then
            markReasoningComplete.setItemContent item
              (Content.ofRecord { parsed with isComplete := some true })
          else item
        | none => item
      else item }

/-- `addOrUpdateItem`. -/
def addOrUpdateItem (task : TaskView) (newItem : ChatItem) (event : MergeMode) : TaskView :=
  match task.items.findIdx? (fun item => item.item_id == newItem.item_id) with
  | none => { items := task.items ++ [newItem] }
  | some existingIndex =>
    match task.items.get? existingIndex with
    | none => task
    | some existingItem =>
      if event == .append && hasContent existingItem && hasContent newItem then
        { items := task.items.set existingIndex
            (markReasoningComplete.setItemContent existingItem
              ((itemContent existingItem).concat (itemContent newItem))) }
      else if event == .appendReasoning && hasContent existingItem && hasContent newItem then
        match (itemContent existingItem).parse, (itemContent newItem).parse with
        | some existingParsed, some newParsed =>
          { items := task.items.set existingIndex
              (markReasoningComplete.setItemContent existingItem
                (Content.ofRecord
                  { content := some ((existingParsed.content.getD (.raw "")).concat
                      (newParsed.content.getD (.raw ""))),
                    isComplete := some (newParsed.isComplete.getD false) })) }
        | _, _ => { items := task.items.set existingIndex newItem }
      else { items := task.items.set existingIndex newItem }

/-- `handleChatItemEvent`, at the level of one conversation (all its reads and
writes stay inside the conversation `data.conversation_id` addresses). -/
def handleChatItemEventConv (conversation : ConversationView) (data : ChatItem)
    (event : MergeMode) : ConversationView :=
  let conversation := ensureThreadTask conversation data.thread_id data.task_id
  if isSectionWorthy data.component_type then
    { conversation with
      sections := modifyEntry conversation.sections (data.component_type.getD "") emptyThread
        (fun th => { tasks := modifyEntry th.tasks data.task_id emptyTask
                        (fun t => addOrUpdateItem t data event) }) }
  else
    { conversation with
      threads := modifyEntry conversation.threads data.thread_id emptyThread
        (fun th => { tasks := modifyEntry th.tasks data.task_id emptyTask
                        (fun t => addOrUpdateItem t data event) }) }

/-- The item a chat-item event stores before the per-branch overrides:
`{...data}` with no `component_type` yet. -/
def chatItemOfData (data : EventData) : ChatItem :=
  { item_id := data.item_id, conversation_id := data.conversation_id,
    thread_id := data.thread_id, task_id := data.task_id,
    component_type := none, role := data.role,
    payload := some data.payload, metadata := data.metadata }

/-- The event kinds the dispatcher recognizes; any other kind falls through
to the no-op default branch. -/
def RECOGNIZED_EVENT_KINDS : List String :=
  ["component_generator", "thread_started", "message_chunk", "message",
   "task_failed", "plan_failed", "plan_require_user_input", "reasoning",
   "reasoning_started", "reasoning_completed", "tool_call_started",
   "tool_call_completed"]

/-- `processSSEEvent`, at the level of the one conversation every recognized
branch starts by materializing via `ensurePath`. -/
def processConvEvent (conversation : ConversationView) (sse : SSEData) : ConversationView :=
  let event := sse.event
  let data := sse.data
  if event = "component_generator" then
    let component_type := data.payload.component_type
    if component_type = some "scheduled_task_result" ∨
        component_type = some "subagent_conversation" then
      handleChatItemEventConv conversation
        { chatItemOfData data with component_type := component_type } .replace
    else
      handleChatItemEventConv conversation
        { chatItemOfData data with component_type := component_type } .append
  else if event = "thread_started" ∨ event = "message_chunk" ∨ event = "message" ∨
      event = "task_failed" ∨ event = "plan_failed" ∨
      event = "plan_require_user_input" then
    handleChatItemEventConv conversation
      { chatItemOfData data with component_type := some "markdown" } .append
  else if event = "reasoning" then
    handleChatItemEventConv conversation
      { chatItemOfData data with
        component_type := some "reasoning",
        payload := some { content := some (Content.ofRecord
          { content := data.payload.content, isComplete := some false }) } }
      .appendReasoning
  else if event = "reasoning_started" then
    handleChatItemEventConv conversation
      { chatItemOfData data with
        component_type := some "reasoning",
        payload := some { content := some (Content.ofRecord
          { content := some (.raw ""), isComplete := some false }) } }
      .replace
  else if event = "reasoning_completed" then
    let conversation := ensureThreadTask conversation data.thread_id data.task_id
    { conversation with
      threads := modifyEntry conversation.threads data.thread_id emptyThread
        (fun th => { tasks := modifyEntry th.tasks data.task_id emptyTask
                        (fun t => markReasoningComplete t data.item_id) }) }
  else if event = "tool_call_started" ∨ event = "tool_call_completed" then
    let conversation := ensureThreadTask conversation data.thread_id data.task_id
    let thread := (lookupEntry conversation.threads data.thread_id).getD emptyThread
    let templateType := detectStepTemplateInThread thread
    let shouldApplyTemplate :=
      shouldApplyAnalysisStepTemplate thread data.payload.tool_name
    let stepOrder := getToolStepOrderInThread thread data.item_id data.payload.tool_name
    let companyName := detectCompanyNameInThread thread (data.metadata.bind Metadata.task_title)
    let plannedStepLabel :=
      if shouldApplyTemplate then buildPlannedStepLabel stepOrder companyName templateType
      else none
    handleChatItemEventConv conversation
      { chatItemOfData data with
        component_type := some "tool_call",
        payload := some { content := some (.ser data.payload.content
          data.payload.isComplete data.payload.tool_name plannedStepLabel
          data.payload.component_type data.payload.extra) } }
      .replace
  else conversation

/-- `processSSEEvent`: recognized kinds materialize and update the addressed
conversation; unknown kinds leave the draft untouched. -/
def processSSEEvent (draft : AgentConversationsStore) (sse : SSEData) :
    AgentConversationsStore :=
  if RECOGNIZED_EVENT_KINDS.contains sse.event then
    modifyEntry draft sse.data.conversation_id emptyConversation
      (fun conversation => processConvEvent conversation sse)
  else draft

/-- `updateAgentConversationsStore`: one event, one new snapshot (the
`mutative` wrapper is the identity in the pure model). -/
def updateAgentConversationsStore (store : AgentConversationsStore) (sseData : SSEData) :
    AgentConversationsStore :=
  processSSEEvent store sseData

/-- `batchUpdateAgentConversationsStore`. -/
def batchUpdateAgentConversationsStore (store : AgentConversationsStore)
    (conversationId : String) (sseDataList : List SSEData)
    (clearHistory : Bool := false) : AgentConversationsStore :=
  let draft :=
    if clearHistory && (lookupEntry store conversationId).isSome then
      eraseEntry store conversationId
    else store
  let draft := sseDataList.foldl processSSEEvent draft
  match lookupEntry draft conversationId with
  | none => draft
  | some conversation =>
    setEntry draft conversationId
      { conversation with
        threads := conversation.threads.map fun te =>
          (te.1, { tasks := te.2.tasks.map fun ke =>
            (ke.1, markAllReasoningComplete ke.2) }) }

/-! ## Observation helpers (for stating properties) -/

/-- A concrete chunk item used by concrete instances. -/
def chunkItem (s : String) : ChatItem :=
  { item_id := "x", conversation_id := "c", thread_id := "t", task_id := "k",
    payload := some { content := some (.raw s) } }

/-- A concrete reasoning item with the given id and content. -/
def reasonItem (iid : String) (c : Content) : ChatItem :=
  { item_id := iid, conversation_id := "c", thread_id := "t", task_id := "k",
    component_type := some "reasoning", payload := some { content := some c } }

/-- The task the store holds at a conversation/thread/task address (empty if
any level is absent). -/
def addressedTask (store : AgentConversationsStore) (cid tid kid : String) : TaskView :=
  (lookupEntry
    ((lookupEntry
      ((lookupEntry store cid).getD emptyConversation).threads tid).getD emptyThread).tasks
    kid).getD emptyTask

/-- The task stored at a conversation/thread/task address, if present. -/
def getTask? (store : AgentConversationsStore) (cid tid kid : String) : Option TaskView :=
  (lookupEntry store cid).bind fun conversation =>
    (lookupEntry conversation.threads tid).bind fun thread =>
      lookupEntry thread.tasks kid

/-- The `isComplete` flag carried by a serialized payload content (false for
unparseable content or an absent flag). -/
def contentMarkedComplete (c : Content) : Bool :=
  match c.parse with
  | some p => p.isComplete.getD false
  | none => false

/-- A concrete markdown item for concrete instances. -/
def mdItemW : ChatItem :=
  { item_id := "m", conversation_id := "c", thread_id := "t", task_id := "k",
    component_type := some "markdown", payload := some { content := some (.raw "hello") } }

/-- A concrete one-item store around `mdItemW`. -/
def mdStoreW : AgentConversationsStore :=
  [("c", { threads := [("t", { tasks := [("k", { items := [mdItemW] })] })],
           sections := [] })]

/-- C5 scenario: a user message naming a subject with its stock code, a
plan-generation tool call (started, then completed), then a research tool
call arriving as the third tool-call event. -/
def scenarioEvents : List SSEData :=
  [{ event := "message",
     data := { item_id := "u1", conversation_id := "c1", thread_id := "t1", task_id := "k1",
               role := some "user",
               payload := { content := some (.raw "贵州茅台（600519）近期走势如何") } } },
   { event := "tool_call_started",
     data := { item_id := "a", conversation_id := "c1", thread_id := "t1", task_id := "k1",
               payload := { tool_name := some "generate_execution_plan" } } },
   { event := "tool_call_completed",
     data := { item_id := "a", conversation_id := "c1", thread_id := "t1", task_id := "k1",
               payload := { tool_name := some "generate_execution_plan" } } },
   { event := "tool_call_started",
     data := { item_id := "b", conversation_id := "c1", thread_id := "t1", task_id := "k1",
               payload := { tool_name := some "fetch_ashare_filings" } } }]

/-- The store the C5 scenario events build from scratch. -/
def scenarioStore : AgentConversationsStore :=
  scenarioEvents.foldl updateAgentConversationsStore []

/-- No item of a section-worthy kind sits in this task. -/
def TaskFree (t : TaskView) : Prop :=
  ∀ it ∈ t.items, isSectionWorthy it.component_type = false

/-- No item of a section-worthy kind sits in any task of this thread. -/
def ThreadFree (th : ThreadView) : Prop :=
  ∀ e ∈ th.tasks, TaskFree e.2

/-- No item of a section-worthy kind sits anywhere in the conversation's
main thread/task tree (`conversation.threads[*].tasks[*].items`). -/
def ConvFree (c : ConversationView) : Prop :=
  ∀ e ∈ c.threads, ThreadFree e.2

/-- No item of a section-worthy kind sits in any conversation's main tree. -/
def StoreFree (s : AgentConversationsStore) : Prop :=
  ∀ e ∈ s, ConvFree e.2

/-- A `component_generator` event delivering a `report` item. -/
def reportEvent (kid iid : String) : SSEData :=
  { event := "component_generator",
    data := { item_id := iid, conversation_id := "c1", thread_id := "t1", task_id := kid,
              payload := { content := some (.raw "x"), component_type := some "report" } } }

/-- A store built from two `report` events with distinct `task_id`s. -/
def twoReportStore : AgentConversationsStore :=
  [reportEvent "k1" "i1", reportEvent "k2" "i2"].foldl updateAgentConversationsStore []

/-- The conversation's sections container has at most one entry per kind
(its keys are pairwise distinct). -/
def ConvSectionsNodup (c : ConversationView) : Prop :=
  ((c.sections.map Prod.fst)).Nodup

/-- Every conversation's sections container has distinct kind keys. -/
def SectionsNodup (s : AgentConversationsStore) : Prop :=
  ∀ e ∈ s, ConvSectionsNodup e.2

/-- A `component_generator` event that delivers a `reasoning`-kind item whose
content is unparseable raw text. -/
def cgReasoningEvent : SSEData :=
  { event := "component_generator",
    data := { item_id := "r1", conversation_id := "c1", thread_id := "t1", task_id := "k1",
              payload := { content := some (.raw "oops"),
                           component_type := some "reasoning" } } }

/-- A store already holding conversation `c1` with prior history. -/
def preC6Store : AgentConversationsStore :=
  [("c1", { threads := [("old", { tasks := [("ok", { items := [chunkItem "z"] })] })],
            sections := [] })]

/-! ## Map lemmas -/

theorem lookupEntry_nil {α : Type} (k : String) :
    lookupEntry ([] : List (String × α)) k = none := rfl

theorem lookupEntry_cons {α : Type} (e : String × α) (rest : List (String × α)) (k : String) :
    lookupEntry (e :: rest) k = if e.1 = k then some e.2 else lookupEntry rest k := by
  by_cases h : e.1 = k
  · simp [lookupEntry, List.find?, h]
  · have hb : (e.1 == k) = false := by simp [h]
    simp [lookupEntry, List.find?, hb, h]

theorem lookup_setEntry_self {α : Type} (m : List (String × α)) (k : String) (v : α) :
    lookupEntry (setEntry m k v) k = some v := by
  induction m with
  | nil => simp [setEntry, lookupEntry_cons]
  | cons e rest ih =>
    by_cases h : e.1 = k
    · simp [setEntry, h, lookupEntry_cons]
    · simp [setEntry, h, lookupEntry_cons, ih]

theorem lookup_setEntry_ne {α : Type} (m : List (String × α)) (k c : String) (v : α)
    (h : k ≠ c) : lookupEntry (setEntry m k v) c = lookupEntry m c := by
  induction m with
  | nil => simp [setEntry, lookupEntry_cons, h]
  | cons e rest ih =>
    by_cases he : e.1 = k
    · simp [setEntry, he, lookupEntry_cons, h]
    · simp [setEntry, he, lookupEntry_cons, ih]

theorem lookup_modifyEntry_self {α : Type} (m : List (String × α)) (k : String) (d : α)
    (f : α → α) :
    lookupEntry (modifyEntry m k d f) k = some (f ((lookupEntry m k).getD d)) :=
  lookup_setEntry_self m k _

theorem lookup_modifyEntry_ne {α : Type} (m : List (String × α)) (k c : String) (d : α)
    (f : α → α) (h : k ≠ c) :
    lookupEntry (modifyEntry m k d f) c = lookupEntry m c :=
  lookup_setEntry_ne m k c _ h

theorem lookup_eraseEntry_self {α : Type} (m : List (String × α)) (k : String) :
    lookupEntry (eraseEntry m k) k = none := by
  induction m with
  | nil => rfl
  | cons e rest ih =>
    by_cases h : e.1 = k
    · simpa [eraseEntry, h] using ih
    · simpa [eraseEntry, h, lookupEntry_cons] using ih

theorem mem_setEntry {α : Type} {m : List (String × α)} {k : String} {v : α}
    {x : String × α} (hx : x ∈ setEntry m k v) : x = (k, v) ∨ x ∈ m := by
  induction m with
  | nil => simpa [setEntry] using hx
  | cons e rest ih =>
    by_cases h : e.1 = k
    · simp [setEntry, h] at hx
      rcases hx with hx | hx
      · exact Or.inl hx
      · exact Or.inr (List.mem_cons_of_mem _ hx)
    · simp [setEntry, h] at hx
      rcases hx with hx | hx
      · exact Or.inr (by simp [hx])
      · rcases ih hx with h1 | h1
        · exact Or.inl h1
        · exact Or.inr (List.mem_cons_of_mem _ h1)

theorem mem_modifyEntry {α : Type} {m : List (String × α)} {k : String} {d : α}
    {f : α → α} {x : String × α} (hx : x ∈ modifyEntry m k d f) :
    x = (k, f ((lookupEntry m k).getD d)) ∨ x ∈ m :=
  mem_setEntry hx

theorem mem_ensureEntry {α : Type} {m : List (String × α)} {k : String} {d : α}
    {x : String × α} (hx : x ∈ ensureEntry m k d) : x = (k, d) ∨ x ∈ m := by
  unfold ensureEntry at hx
  split at hx
  · exact Or.inr hx
  · rcases List.mem_append.mp hx with h | h
    · exact Or.inr h
    · exact Or.inl (by simpa using h)

theorem keys_setEntry {α : Type} (m : List (String × α)) (k : String) (v : α) :
    (setEntry m k v).map Prod.fst =
      if k ∈ m.map Prod.fst then m.map Prod.fst else m.map Prod.fst ++ [k] := by
  induction m with
  | nil => simp [setEntry]
  | cons e rest ih =>
    by_cases h : e.1 = k
    · simp [setEntry, h]
    · have hne : ¬ k = e.1 := fun hk => h hk.symm
      by_cases hk : k ∈ rest.map Prod.fst <;> simp [setEntry, h, ih, hne, hk]

theorem nodup_keys_setEntry {α : Type} {m : List (String × α)} (k : String) (v : α)
    (h : (m.map Prod.fst).Nodup) : ((setEntry m k v).map Prod.fst).Nodup := by
  rw [keys_setEntry]
  split
  · exact h
  · next hk =>
      exact h.append (List.nodup_singleton k) (List.disjoint_singleton.mpr hk)

/-! ## List helper lemmas -/

theorem get?_append_length {α : Type} (l : List α) (a : α) :
    (l ++ [a]).get? l.length = some a := by
  induction l with
  | nil => rfl
  | cons x rest ih => simp [ih]

theorem set_append_length {α : Type} (l : List α) (a x : α) :
    (l ++ [a]).set l.length x = l ++ [x] := by
  induction l with
  | nil => rfl
  | cons y rest ih => simp [ih]

theorem addOrUpdateItem_not_found (task : TaskView) (newItem : ChatItem) (mode : MergeMode)
    (h : ∀ it ∈ task.items, it.item_id ≠ newItem.item_id) :
    addOrUpdateItem task newItem mode = { items := task.items ++ [newItem] } := by
  have hf : task.items.findIdx? (fun item => item.item_id == newItem.item_id) = none := by
    rw [List.findIdx?_eq_none_iff]
    intro x hx
    simpa using h x hx
  simp [addOrUpdateItem, hf]

/-! ## C9 -/

/-- C9: for every store and every event whose kind is not one of the
recognized discriminators, the single-event update returns the store
unchanged (the pure rendering of mutative's reference-equal snapshot):
no container is created, no item is added or changed, and the function is
total, so no error is raised. -/
theorem C9_unknown_kind_noop (store : AgentConversationsStore) (sse : SSEData)
    (h : sse.event ∉ RECOGNIZED_EVENT_KINDS) :
    updateAgentConversationsStore store sse = store := by
  have hc : RECOGNIZED_EVENT_KINDS.contains sse.event = false := by
    rw [List.contains_eq_any_beq]
    simp only [List.any_eq_false]
    intro x hx
    simp only [beq_iff_eq]
    intro hxe
    exact h (hxe ▸ hx)
  simp [updateAgentConversationsStore, processSSEEvent, hc, h]

/-- Witness for C9 at a concrete unknown kind. -/
theorem C9_unknown_kind_noop_witness :
    updateAgentConversationsStore []
      { event := "ping",
        data := { item_id := "i", conversation_id := "c", thread_id := "t", task_id := "k" } }
      = [] :=
  C9_unknown_kind_noop [] _ (by decide)

/-! ## C2 -/

/-- C2: `addOrUpdateItem` with mode `append`.  (i) If no item with the new
item's id exists, the new item is appended at the end regardless of mode.
(ii) Upserting `a` then `b` (same id, both with string content) with mode
`append` stores, at `a`'s position, `a` with only its payload content changed
to `content(a) + content(b)`.  (iii) If either side lacks string content, the
existing item is fully replaced in place by the new one. -/
theorem C2_append_merge :
    (∀ (task : TaskView) (newItem : ChatItem) (mode : MergeMode),
        (∀ it ∈ task.items, it.item_id ≠ newItem.item_id) →
        addOrUpdateItem task newItem mode = { items := task.items ++ [newItem] }) ∧
    (∀ (task : TaskView) (a b : ChatItem),
        (∀ it ∈ task.items, it.item_id ≠ a.item_id) →
        b.item_id = a.item_id → hasContent a = true → hasContent b = true →
        addOrUpdateItem (addOrUpdateItem task a .append) b .append =
          { items := task.items ++
              [markReasoningComplete.setItemContent a
                ((itemContent a).concat (itemContent b))] }) ∧
    (∀ (task : TaskView) (newItem existing : ChatItem) (i : Nat),
        task.items.findIdx? (fun item => item.item_id == newItem.item_id) = some i →
        task.items.get? i = some existing →
        ¬(hasContent existing = true ∧ hasContent newItem = true) →
        addOrUpdateItem task newItem .append = { items := task.items.set i newItem }) := by
  refine ⟨addOrUpdateItem_not_found, ?_, ?_⟩
  · intro task a b hids hb hca hcb
    rw [addOrUpdateItem_not_found task a .append hids]
    have h1 : task.items.findIdx? (fun item => item.item_id == b.item_id) = none := by
      rw [List.findIdx?_eq_none_iff]
      intro x hx
      simpa [hb] using hids x hx
    have hf : (task.items ++ [a]).findIdx? (fun item => item.item_id == b.item_id) =
        some task.items.length := by
      rw [List.findIdx?_append, h1]
      simp [hb]
    simp only [addOrUpdateItem, hf, get?_append_length]
    simp [hca, hcb, set_append_length]
  · intro task newItem existing i hfind hget hnc
    simp only [addOrUpdateItem, hfind, hget]
    have hfalse :
        (MergeMode.append == MergeMode.append && hasContent existing && hasContent newItem)
          = false := by
      cases he : hasContent existing <;> cases hn : hasContent newItem <;>
        simp_all
    have hfalse2 :
        (MergeMode.append == MergeMode.appendReasoning && hasContent existing &&
          hasContent newItem) = false := by
      simp
    simp only [hfalse, hfalse2]
    simp

/-- Witness for C2 at a concrete pair of text chunks `"foo"`, `"bar"`. -/
theorem C2_append_merge_witness :
    addOrUpdateItem (addOrUpdateItem emptyTask (chunkItem "foo") .append)
      (chunkItem "bar") .append = { items := [chunkItem "foobar"] } :=
  C2_append_merge.2.1 emptyTask (chunkItem "foo") (chunkItem "bar")
    (by simp [emptyTask]) rfl rfl rfl

/-! ## C3 -/

theorem parse_ofRecord (p : Payload) : (Content.ofRecord p).parse = some p := rfl

/-- C3: `addOrUpdateItem` with mode `append-reasoning` onto an existing item.
If both sides' string contents deserialize, the stored result is the
re-serialized record whose `content` is the concatenation of the two
deserialized `content` fields and whose `isComplete` is the new item's
`isComplete`, defaulting to false when absent.  If deserialization of either
side fails, the existing item is fully replaced by the new one.  (The merge
is a total function: no parse failure propagates.) -/
theorem C3_append_reasoning_merge :
    (∀ (task : TaskView) (newItem existing : ChatItem) (i : Nat) (ep np : Payload),
        task.items.findIdx? (fun item => item.item_id == newItem.item_id) = some i →
        task.items.get? i = some existing →
        hasContent existing = true → hasContent newItem = true →
        (itemContent existing).parse = some ep →
        (itemContent newItem).parse = some np →
        addOrUpdateItem task newItem .appendReasoning =
          { items := task.items.set i
              (markReasoningComplete.setItemContent existing
                (Content.ofRecord
                  { content := some ((ep.content.getD (.raw "")).concat
                      (np.content.getD (.raw ""))),
                    isComplete := some (np.isComplete.getD false) })) }) ∧
    (∀ (task : TaskView) (newItem existing : ChatItem) (i : Nat),
        task.items.findIdx? (fun item => item.item_id == newItem.item_id) = some i →
        task.items.get? i = some existing →
        hasContent existing = true → hasContent newItem = true →
        ((itemContent existing).parse = none ∨ (itemContent newItem).parse = none) →
        addOrUpdateItem task newItem .appendReasoning =
          { items := task.items.set i newItem }) := by
  constructor
  · intro task newItem existing i ep np hfind hget hce hcn hpe hpn
    rw [List.get?_eq_getElem?] at hget
    simp [addOrUpdateItem, hfind, hget, hce, hcn, hpe, hpn]
  · intro task newItem existing i hfind hget hce hcn hp
    rw [List.get?_eq_getElem?] at hget
    rcases hp with hpe | hpn
    · simp [addOrUpdateItem, hfind, hget, hce, hcn, hpe]
    · cases hE : (itemContent existing).parse <;>
        simp [addOrUpdateItem, hfind, hget, hce, hcn, hpn, hE]

/-- Witness for C3 at concrete reasoning chunks. -/
theorem C3_append_reasoning_merge_witness :
    addOrUpdateItem
      { items := [reasonItem "r" (.ser (some (.raw "fo")) (some false) none none none [])] }
      (reasonItem "r" (.ser (some (.raw "ob")) (some true) none none none []))
      .appendReasoning =
      { items := [reasonItem "r" (.ser (some (.raw "foob")) (some true) none none none [])] } :=
  C3_append_reasoning_merge.1
    { items := [reasonItem "r" (.ser (some (.raw "fo")) (some false) none none none [])] }
    (reasonItem "r" (.ser (some (.raw "ob")) (some true) none none none []))
    (reasonItem "r" (.ser (some (.raw "fo")) (some false) none none none []))
    0
    { content := some (.raw "fo"), isComplete := some false, tool_name := none,
      step_label := none, component_type := none, extra := [] }
    { content := some (.raw "ob"), isComplete := some true, tool_name := none,
      step_label := none, component_type := none, extra := [] }
    rfl rfl rfl rfl rfl rfl

/-! ## C7 -/

/-- C7: `markReasoningComplete` finds the item with the given id; when its
payload content deserializes, it re-serializes the parsed record with
`isComplete: true`, preserving every other field (in particular the
accumulated `content` is unchanged); when deserialization fails, the raw
string is wrapped as `{content: <raw>, isComplete: true}`. -/
theorem C7_mark_complete :
    (∀ (task : TaskView) (itemId : String) (i : Nat) (item : ChatItem) (parsed : Payload),
        task.items.findIdx? (fun it => it.item_id == itemId) = some i →
        task.items.get? i = some item →
        hasContent item = true →
        (itemContent item).parse = some parsed →
        markReasoningComplete task itemId =
          { items := task.items.set i
              (markReasoningComplete.setItemContent item
                (Content.ofRecord { parsed with isComplete := some true })) } ∧
        (Content.ofRecord { parsed with isComplete := some true }).parse =
          some { parsed with isComplete := some true }) ∧
    (∀ (task : TaskView) (itemId : String) (i : Nat) (item : ChatItem),
        task.items.findIdx? (fun it => it.item_id == itemId) = some i →
        task.items.get? i = some item →
        hasContent item = true →
        (itemContent item).parse = none →
        markReasoningComplete task itemId =
          { items := task.items.set i
              (markReasoningComplete.setItemContent item
                (Content.ofRecord
                  { content := some (itemContent item), isComplete := some true })) }) := by
  constructor
  · intro task itemId i item parsed hfind hget hc hp
    rw [List.get?_eq_getElem?] at hget
    refine ⟨?_, parse_ofRecord _⟩
    simp [markReasoningComplete, hfind, hget, hc, hp]
  · intro task itemId i item hfind hget hc hp
    rw [List.get?_eq_getElem?] at hget
    simp [markReasoningComplete, hfind, hget, hc, hp]

/-- Witness for C7: completing an accumulated reasoning record keeps its
content. -/
theorem C7_mark_complete_witness :
    markReasoningComplete
      { items := [reasonItem "r" (.ser (some (.raw "foobar")) (some false) none none none [])] }
      "r" =
      { items := [reasonItem "r" (.ser (some (.raw "foobar")) (some true) none none none [])] } :=
  (C7_mark_complete.1
    { items := [reasonItem "r" (.ser (some (.raw "foobar")) (some false) none none none [])] }
    "r" 0
    (reasonItem "r" (.ser (some (.raw "foobar")) (some false) none none none []))
    { content := some (.raw "foobar"), isComplete := some false, tool_name := none,
      step_label := none, component_type := none, extra := [] }
    rfl rfl rfl rfl).1

/-! ## C10 -/

theorem lookup_append_of_none {α : Type} {m : List (String × α)} {k : String}
    (h : lookupEntry m k = none) (m₂ : List (String × α)) :
    lookupEntry (m ++ m₂) k = lookupEntry m₂ k := by
  induction m with
  | nil => rfl
  | cons e rest ih =>
    rw [lookupEntry_cons] at h
    by_cases he : e.1 = k
    · simp [he] at h
    · rw [List.cons_append, lookupEntry_cons, if_neg he]
      exact ih (by simpa [he] using h)

theorem lookup_ensureEntry_self {α : Type} (m : List (String × α)) (k : String) (d : α) :
    lookupEntry (ensureEntry m k d) k = some ((lookupEntry m k).getD d) := by
  unfold ensureEntry
  cases h : lookupEntry m k with
  | some v => simp [h]
  | none => simp [h, lookup_append_of_none h, lookupEntry_cons]

/-- The `reasoning_completed` arm of the dispatcher, as an equation (the
string comparisons of the if-chain reduce definitionally). -/
theorem processConvEvent_reasoning_completed (conversation : ConversationView)
    (d : EventData) :
    processConvEvent conversation { event := "reasoning_completed", data := d } =
      { ensureThreadTask conversation d.thread_id d.task_id with
        threads := modifyEntry
          (ensureThreadTask conversation d.thread_id d.task_id).threads
          d.thread_id emptyThread
          (fun th => { tasks := modifyEntry th.tasks d.task_id emptyTask
                          (fun t => markReasoningComplete t d.item_id) }) } := rfl

/-- The `reasoning_completed` branch, end to end through the store: the
addressed task is rewritten by `markReasoningComplete`. -/
theorem getTask?_reasoning_completed (store : AgentConversationsStore) (d : EventData) :
    getTask? (processSSEEvent store { event := "reasoning_completed", data := d })
        d.conversation_id d.thread_id d.task_id =
      some (markReasoningComplete
        (addressedTask store d.conversation_id d.thread_id d.task_id) d.item_id) := by
  have hrec : RECOGNIZED_EVENT_KINDS.contains "reasoning_completed" = true := by decide
  simp only [processSSEEvent, hrec, if_true]
  simp [getTask?, lookup_modifyEntry_self, lookup_ensureEntry_self, ensureThreadTask,
    addressedTask, processConvEvent_reasoning_completed]

/-- C10: the targeted completion applied by a `reasoning_completed` event does
not inspect the found item's component kind: whatever the kind, the item found
by the event's `item_id` (if it has string content) has its payload content
rewritten to a serialized record carrying `isComplete: true` — merged into the
parsed record when the content deserializes, otherwise wrapping the raw
string. -/
theorem C10_completion_ignores_kind (store : AgentConversationsStore) (d : EventData)
    (i : Nat) (item : ChatItem)
    (hfind : (addressedTask store d.conversation_id d.thread_id d.task_id).items.findIdx?
        (fun it => it.item_id == d.item_id) = some i)
    (hget : (addressedTask store d.conversation_id d.thread_id d.task_id).items.get? i =
        some item)
    (hc : hasContent item = true) :
    ∃ newContent : Content,
      newContent = (match (itemContent item).parse with
        | some p => Content.ofRecord { p with isComplete := some true }
        | none => Content.ofRecord
            { content := some (itemContent item), isComplete := some true }) ∧
      getTask? (processSSEEvent store { event := "reasoning_completed", data := d })
          d.conversation_id d.thread_id d.task_id =
        some (TaskView.mk
          ((addressedTask store d.conversation_id d.thread_id d.task_id).items.set i
            (markReasoningComplete.setItemContent item newContent))) ∧
      contentMarkedComplete newContent = true := by
  refine ⟨_, rfl, ?_, ?_⟩
  · rw [getTask?_reasoning_completed store d]
    rw [List.get?_eq_getElem?] at hget
    cases hp : (itemContent item).parse <;>
      simp [markReasoningComplete, hfind, hget, hc, hp]
  · cases hp : (itemContent item).parse <;>
      simp [contentMarkedComplete, hp, parse_ofRecord]

/-- Witness for C10: a `markdown` item (not a reasoning one) still gets its
content rewritten to a completed record. -/
theorem C10_completion_ignores_kind_witness :
    ∃ newContent : Content,
      newContent = (match (itemContent mdItemW).parse with
        | some p => Content.ofRecord { p with isComplete := some true }
        | none => Content.ofRecord
            { content := some (itemContent mdItemW), isComplete := some true }) ∧
      getTask? (processSSEEvent mdStoreW
          { event := "reasoning_completed",
            data := { item_id := "m", conversation_id := "c", thread_id := "t",
                      task_id := "k" } }) "c" "t" "k" =
        some (TaskView.mk ((addressedTask mdStoreW "c" "t" "k").items.set 0
          (markReasoningComplete.setItemContent mdItemW newContent))) ∧
      contentMarkedComplete newContent = true :=
  C10_completion_ignores_kind mdStoreW
    { item_id := "m", conversation_id := "c", thread_id := "t", task_id := "k" }
    0 mdItemW rfl rfl rfl

/-! ## C4 -/

theorem findIdx?_congr {α : Type} {p q : α → Bool} (l : List α)
    (h : ∀ x ∈ l, p x = q x) : l.findIdx? p = l.findIdx? q := by
  induction l with
  | nil => rfl
  | cons x xs ih =>
    have hx := h x (List.mem_cons_self x xs)
    have ih' := ih (fun y hy => h y (List.mem_cons_of_mem _ hy))
    simp [List.findIdx?_cons, hx, ih']

theorem planning_items_are_tool_calls (thread : ThreadView) :
    ∀ it ∈ getPlanningToolItems thread, it.component_type = some "tool_call" := by
  intro it hit
  have hmem : it ∈ (getThreadItems thread).filter
      (fun x => x.component_type == some "tool_call") := by
    simp only [getPlanningToolItems] at hit
    split at hit
    · exact List.mem_of_mem_drop hit
    · simp at hit
  have := (List.mem_filter.mp hmem).2
  simpa using this

/-- C4: the synthesized step ordinal.  (i) Empty planning run: 1 for the
plan-generation tool, else 0.  (ii) Non-empty run containing the event's
`item_id` at position `i`: ordinal `i + 1`.  (iii) Non-empty run not
containing the `item_id`: ordinal `len(run) + 1`. -/
theorem C4_tool_step_order :
    (∀ (thread : ThreadView) (itemId : String) (toolName : Option String),
        getPlanningToolItems thread = [] →
        getToolStepOrderInThread thread itemId toolName =
          (if toolName = some "generate_execution_plan" then 1 else 0)) ∧
    (∀ (thread : ThreadView) (itemId : String) (toolName : Option String) (i : Nat),
        (getPlanningToolItems thread).findIdx? (fun it => it.item_id == itemId) = some i →
        getToolStepOrderInThread thread itemId toolName = i + 1) ∧
    (∀ (thread : ThreadView) (itemId : String) (toolName : Option String),
        getPlanningToolItems thread ≠ [] →
        (∀ it ∈ getPlanningToolItems thread, it.item_id ≠ itemId) →
        getToolStepOrderInThread thread itemId toolName =
          (getPlanningToolItems thread).length + 1) := by
  refine ⟨?_, ?_, ?_⟩
  · intro thread itemId toolName h
    unfold getToolStepOrderInThread
    simp [h]
  · intro thread itemId toolName i hfind
    have hcongr : (getPlanningToolItems thread).findIdx?
        (fun it => it.component_type == some "tool_call" && it.item_id == itemId) =
        (getPlanningToolItems thread).findIdx? (fun it => it.item_id == itemId) := by
      refine findIdx?_congr _ (fun x hx => ?_)
      have := planning_items_are_tool_calls thread x hx
      simp [this]
    have hlt : i < (getPlanningToolItems thread).length :=
      (List.findIdx?_eq_some_iff_findIdx_eq.mp hfind).1
    have hne : ¬ (getPlanningToolItems thread).length = 0 := by omega
    unfold getToolStepOrderInThread
    simp only [hne, if_false, hcongr, hfind]
  · intro thread itemId toolName hne hnot
    have hnone : (getPlanningToolItems thread).findIdx?
        (fun it => it.component_type == some "tool_call" && it.item_id == itemId) = none := by
      rw [List.findIdx?_eq_none_iff]
      intro x hx
      have h1 := planning_items_are_tool_calls thread x hx
      have h2 := hnot x hx
      simp [h1, h2]
    have hlen : ¬ (getPlanningToolItems thread).length = 0 := by
      simpa [List.length_eq_zero] using hne
    unfold getToolStepOrderInThread
    simp only [hlen, if_false, hnone]

/-- Witness for C4 on the empty thread: the plan-generation tool gets
ordinal 1, any other tool ordinal 0. -/
theorem C4_tool_step_order_witness :
    getToolStepOrderInThread emptyThread "i" (some "generate_execution_plan") = 1 ∧
    getToolStepOrderInThread emptyThread "i" (some "web_search") = 0 :=
  ⟨C4_tool_step_order.1 emptyThread "i" (some "generate_execution_plan") rfl,
   C4_tool_step_order.1 emptyThread "i" (some "web_search") rfl⟩

/-! ## C5 -/

set_option maxRecDepth 100000 in
/-- C5: (i) in the concrete scenario — first tool-call event names the
plan-generation tool, a user message contains a recognizable subject name and
no news markers — the third tool-call event is stored with a step label equal
to the second analysis title followed by the subject name in fullwidth
parentheses.  (ii) In general, for the `analysis` template an ordinal ≥ 2
with a non-empty subject name appends `（subject）` to the looked-up title.
(iii) `news` labels never depend on the subject name. -/
theorem C5_planned_step_labels :
    ((getTask? scenarioStore "c1" "t1" "k1").map (fun t => t.items.map
        (fun it => (it.item_id, getToolNameFromItem it, getStepLabelFromItem it))) =
      some [("u1", none, none),
            ("a", some "generate_execution_plan", some "构建分析策略任务规划"),
            ("b", some "fetch_ashare_filings",
             some "基本面与财务健康度调研（贵州茅台）")]) ∧
    (∀ (stepOrder : Nat) (name title : String),
        2 ≤ stepOrder → name ≠ "" →
        ANALYSIS_STEP_TITLES.get? (stepOrder - 1) = some title →
        buildPlannedStepLabel stepOrder (some name) .analysis =
          some (title ++ "（" ++ name ++ "）")) ∧
    (∀ (stepOrder : Nat) (companyName : Option String),
        buildPlannedStepLabel stepOrder companyName .news =
          buildPlannedStepLabel stepOrder none .news) := by
  refine ⟨by rfl, ?_, ?_⟩
  · intro stepOrder name title h2 hne htitle
    match stepOrder, h2 with
    | n + 2, _ =>
      rw [List.get?_eq_getElem?] at htitle
      have hn : ANALYSIS_STEP_TITLES[n + 1]? = some title := htitle
      have hname : truthyString (some name) = some name := by
        cases name with
        | mk l =>
          cases l with
          | nil => simp at hne
          | cons c cs => rfl
      simp [buildPlannedStepLabel, hn, hname]
  · intro stepOrder companyName
    cases stepOrder with
    | zero => rfl
    | succ n =>
      cases h : NEWS_STEP_TITLES.get? n <;>
        cases hc : truthyString companyName <;>
          simp [buildPlannedStepLabel, h, hc]

/-- Witness for C5's general parts at ordinal 2 and subject 贵州茅台. -/
theorem C5_planned_step_labels_witness :
    buildPlannedStepLabel 2 (some "贵州茅台") .analysis =
      some ("基本面与财务健康度调研" ++ "（" ++ "贵州茅台" ++ "）") ∧
    buildPlannedStepLabel 2 (some "贵州茅台") .news = buildPlannedStepLabel 2 none .news :=
  ⟨C5_planned_step_labels.2.1 2 "贵州茅台" "基本面与财务健康度调研" (by decide)
      (by decide) rfl,
   C5_planned_step_labels.2.2 2 (some "贵州茅台")⟩

/-! ## C1 -/

theorem lookupEntry_mem {α : Type} {m : List (String × α)} {k : String} {v : α}
    (h : lookupEntry m k = some v) : ∃ k', (k', v) ∈ m := by
  unfold lookupEntry at h
  cases hf : m.find? (fun e => e.1 == k) with
  | none => simp [hf] at h
  | some e =>
    rw [hf] at h
    refine ⟨e.1, ?_⟩
    have := List.mem_of_find?_eq_some hf
    simpa using Option.some.inj h ▸ this

theorem setItemContent_component_type (it : ChatItem) (c : Content) :
    (markReasoningComplete.setItemContent it c).component_type = it.component_type := by
  unfold markReasoningComplete.setItemContent
  cases it.payload <;> rfl

theorem addOrUpdateItem_taskFree {t : TaskView} {item : ChatItem} (mode : MergeMode)
    (ht : TaskFree t) (hitem : isSectionWorthy item.component_type = false) :
    TaskFree (addOrUpdateItem t item mode) := by
  unfold addOrUpdateItem
  cases hf : t.items.findIdx? (fun x => x.item_id == item.item_id) with
  | none =>
    dsimp only
    intro it hit
    rcases List.mem_append.mp hit with h | h
    · exact ht it h
    · rw [List.mem_singleton.mp h]
      exact hitem
  | some i =>
    dsimp only
    cases hg : t.items.get? i with
    | none => exact ht
    | some existing =>
      dsimp only
      have hex : existing ∈ t.items := List.get?_mem hg
      have hset : ∀ x, isSectionWorthy x.component_type = false →
          TaskFree { items := t.items.set i x } := by
        intro x hx it hit
        rcases List.mem_or_eq_of_mem_set hit with h | h
        · exact ht it h
        · rw [h]
          exact hx
      have hfree1 : ∀ c, isSectionWorthy
          (markReasoningComplete.setItemContent existing c).component_type = false := by
        intro c
        rw [setItemContent_component_type]
        exact ht existing hex
      split
      · exact hset _ (hfree1 _)
      · split
        · split
          · exact hset _ (hfree1 _)
          · exact hset _ hitem
        · exact hset _ hitem

theorem markReasoningComplete_taskFree {t : TaskView} (itemId : String)
    (ht : TaskFree t) : TaskFree (markReasoningComplete t itemId) := by
  unfold markReasoningComplete
  cases hf : t.items.findIdx? (fun x => x.item_id == itemId) with
  | none => exact ht
  | some i =>
    dsimp only
    cases hg : t.items.get? i with
    | none => exact ht
    | some item =>
      dsimp only
      split
      · intro it hit
        rcases List.mem_or_eq_of_mem_set hit with h | h
        · exact ht it h
        · rw [h, setItemContent_component_type]
          exact ht item (List.get?_mem hg)
      · exact ht

theorem markAllReasoningComplete_taskFree {t : TaskView} (ht : TaskFree t) :
    TaskFree (markAllReasoningComplete t) := by
  intro it hit
  unfold markAllReasoningComplete at hit
  simp only [List.mem_map] at hit
  obtain ⟨x, hx, hmapped⟩ := hit
  have hxfree := ht x hx
  subst hmapped
  split
  · split
    · split
      · rw [setItemContent_component_type]
        exact hxfree
      · exact hxfree
    · exact hxfree
  · exact hxfree

theorem ensureThreadTask_convFree {c : ConversationView} (tid kid : String)
    (hc : ConvFree c) : ConvFree (ensureThreadTask c tid kid) := by
  intro e he
  unfold ensureThreadTask at he
  simp only at he
  rcases mem_modifyEntry he with h | h
  · subst h
    intro te hte
    simp only at hte
    rcases mem_ensureEntry hte with h2 | h2
    · rw [h2]
      intro it hit
      simp [emptyTask] at hit
    · cases hl : lookupEntry c.threads tid with
      | none =>
        rw [hl] at h2
        simp [emptyThread] at h2
      | some th =>
        obtain ⟨k2, hmem⟩ := lookupEntry_mem hl
        rw [hl] at h2
        simp only [Option.getD_some] at h2
        exact hc (k2, th) hmem te h2
  · exact hc e h

theorem handleChatItemEventConv_convFree {c : ConversationView} {data : ChatItem}
    (mode : MergeMode) (hc : ConvFree c) :
    ConvFree (handleChatItemEventConv c data mode) := by
  unfold handleChatItemEventConv
  have hens := ensureThreadTask_convFree data.thread_id data.task_id hc
  split
  · exact hens
  · next hsec =>
    intro e he
    simp only at he
    rcases mem_modifyEntry he with h | h
    · subst h
      intro te hte
      simp only at hte
      rcases mem_modifyEntry hte with h2 | h2
      · rw [h2]
        refine addOrUpdateItem_taskFree mode ?_ (by simpa using hsec)
        cases hl2 : lookupEntry (ensureThreadTask c data.thread_id data.task_id).threads
            data.thread_id with
        | none =>
          simp only [Option.getD_none]
          intro it hit
          simp [emptyThread, lookupEntry, emptyTask] at hit
        | some th =>
          obtain ⟨k2, hmem2⟩ := lookupEntry_mem hl2
          simp only [Option.getD_some]
          cases hl : lookupEntry th.tasks data.task_id with
          | none =>
            simp only [hl, Option.getD_none]
            intro it hit
            simp [emptyTask] at hit
          | some t0 =>
            obtain ⟨k3, hmem3⟩ := lookupEntry_mem hl
            simp only [hl, Option.getD_some]
            exact hens (k2, th) hmem2 (k3, t0) hmem3
      · cases hl2 : lookupEntry (ensureThreadTask c data.thread_id data.task_id).threads
            data.thread_id with
        | none =>
          rw [hl2] at h2
          simp [emptyThread] at h2
        | some th =>
          obtain ⟨k2, hmem2⟩ := lookupEntry_mem hl2
          rw [hl2] at h2
          simp only [Option.getD_some] at h2
          exact hens (k2, th) hmem2 te h2
    · exact hens e h

theorem modifyTask_convFree {c : ConversationView} (tid kid : String)
    (f : TaskView → TaskView) (hf : ∀ t, TaskFree t → TaskFree (f t))
    (hc : ConvFree c) :
    ConvFree { c with
      threads := modifyEntry c.threads tid emptyThread
                   (fun th => { tasks := modifyEntry th.tasks kid emptyTask f }) } := by
  intro e he
  simp only at he
  rcases mem_modifyEntry he with h | h
  · subst h
    intro te hte
    simp only at hte
    rcases mem_modifyEntry hte with h2 | h2
    · rw [h2]
      refine hf _ ?_
      cases hl2 : lookupEntry c.threads tid with
      | none =>
        simp only [Option.getD_none]
        intro it hit
        simp [emptyThread, lookupEntry, emptyTask] at hit
      | some th =>
        obtain ⟨k2, hmem2⟩ := lookupEntry_mem hl2
        simp only [Option.getD_some]
        cases hl : lookupEntry th.tasks kid with
        | none =>
          simp only [hl, Option.getD_none]
          intro it hit
          simp [emptyTask] at hit
        | some t0 =>
          obtain ⟨k3, hmem3⟩ := lookupEntry_mem hl
          simp only [hl, Option.getD_some]
          exact hc (k2, th) hmem2 (k3, t0) hmem3
    · cases hl2 : lookupEntry c.threads tid with
      | none =>
        rw [hl2] at h2
        simp [emptyThread] at h2
      | some th =>
        obtain ⟨k2, hmem2⟩ := lookupEntry_mem hl2
        rw [hl2] at h2
        simp only [Option.getD_some] at h2
        exact hc (k2, th) hmem2 te h2
  · exact hc e h

theorem processConvEvent_convFree {c : ConversationView} (sse : SSEData)
    (hc : ConvFree c) : ConvFree (processConvEvent c sse) := by
  unfold processConvEvent
  dsimp only
  split
  · split <;> exact handleChatItemEventConv_convFree _ hc
  · split
    · exact handleChatItemEventConv_convFree _ hc
    · split
      · exact handleChatItemEventConv_convFree _ hc
      · split
        · exact handleChatItemEventConv_convFree _ hc
        · split
          · exact modifyTask_convFree _ _ _
              (fun t ht => markReasoningComplete_taskFree _ ht)
              (ensureThreadTask_convFree _ _ hc)
          · split
            · exact handleChatItemEventConv_convFree _
                (ensureThreadTask_convFree _ _ hc)
            · exact hc

theorem processSSEEvent_storeFree {s : AgentConversationsStore} (sse : SSEData)
    (hs : StoreFree s) : StoreFree (processSSEEvent s sse) := by
  unfold processSSEEvent
  split
  · intro e he
    rcases mem_modifyEntry he with h | h
    · subst h
      refine processConvEvent_convFree sse ?_
      cases hl : lookupEntry s sse.data.conversation_id with
      | none =>
        simp only [Option.getD_none]
        intro te hte
        simp [emptyConversation] at hte
      | some cv =>
        obtain ⟨k2, hmem⟩ := lookupEntry_mem hl
        simp only [Option.getD_some]
        exact hs (k2, cv) hmem
    · exact hs e h
  · exact hs

theorem foldl_processSSEEvent_storeFree {s : AgentConversationsStore}
    (evs : List SSEData) (hs : StoreFree s) :
    StoreFree (evs.foldl processSSEEvent s) := by
  induction evs generalizing s with
  | nil => exact hs
  | cons e rest ih => exact ih (processSSEEvent_storeFree e hs)

theorem batchUpdate_storeFree {s : AgentConversationsStore} (cid : String)
    (evs : List SSEData) (clear : Bool) (hs : StoreFree s) :
    StoreFree (batchUpdateAgentConversationsStore s cid evs clear) := by
  unfold batchUpdateAgentConversationsStore
  have h1 : StoreFree (if clear && (lookupEntry s cid).isSome then
      eraseEntry s cid else s) := by
    split
    · intro e he
      exact hs e (List.mem_filter.mp he).1
    · exact hs
  have h2 := foldl_processSSEEvent_storeFree evs h1
  dsimp only
  split
  · exact h2
  · next conv hconv =>
    intro e he
    rcases mem_setEntry he with h | h
    · subst h
      intro te hte
      simp only at hte
      rcases List.mem_map.mp hte with ⟨x, hx, hmapped⟩
      have hconvFree : ConvFree conv := by
        obtain ⟨k2, hmem⟩ := lookupEntry_mem hconv
        exact h2 (k2, conv) hmem
      have hthread := hconvFree x hx
      rw [← hmapped]
      intro ke hke
      simp only at hke
      rcases List.mem_map.mp hke with ⟨y, hy, hmapped2⟩
      rw [← hmapped2]
      exact markAllReasoningComplete_taskFree (hthread y hy)
    · exact h2 e h

theorem ensureThreadTask_sections (c : ConversationView) (tid kid : String) :
    (ensureThreadTask c tid kid).sections = c.sections := rfl

/-- C1: kind-determined partition.  (i) A section-worthy item is written
(with the event's merge mode) only into the conversation's section entry for
its kind (at its `task_id`): the thread/task tree is only materialized, never
given the item.  (ii) A non-section-worthy item never touches `sections`.
(iii)/(iv) Consequently, in every store reachable by single-event updates or
batch replays from a store whose main trees are free of section-worthy kinds
(in particular the empty store), no item of a section-worthy kind ever
appears in `conversation.threads[*].tasks[*].items`. -/
theorem C1_section_partition :
    (∀ (conversation : ConversationView) (data : ChatItem) (mode : MergeMode),
        isSectionWorthy data.component_type = true →
        (handleChatItemEventConv conversation data mode).threads =
          (ensureThreadTask conversation data.thread_id data.task_id).threads ∧
        lookupEntry
            ((lookupEntry (handleChatItemEventConv conversation data mode).sections
              (data.component_type.getD "")).getD emptyThread).tasks data.task_id =
          some (addOrUpdateItem
            ((lookupEntry ((lookupEntry conversation.sections
                (data.component_type.getD "")).getD emptyThread).tasks
              data.task_id).getD emptyTask)
            data mode)) ∧
    (∀ (conversation : ConversationView) (data : ChatItem) (mode : MergeMode),
        isSectionWorthy data.component_type = false →
        (handleChatItemEventConv conversation data mode).sections =
          conversation.sections) ∧
    (∀ (s : AgentConversationsStore) (sse : SSEData),
        StoreFree s → StoreFree (updateAgentConversationsStore s sse)) ∧
    (∀ (s : AgentConversationsStore) (cid : String) (evs : List SSEData) (clear : Bool),
        StoreFree s → StoreFree (batchUpdateAgentConversationsStore s cid evs clear)) := by
  refine ⟨?_, ?_, ?_, ?_⟩
  · intro conversation data mode hsec
    constructor
    · simp [handleChatItemEventConv, hsec]
    · simp [handleChatItemEventConv, hsec, lookup_modifyEntry_self,
        ensureThreadTask_sections]
  · intro conversation data mode hsec
    simp [handleChatItemEventConv, hsec, ensureThreadTask_sections]
  · intro s sse hs
    exact processSSEEvent_storeFree sse hs
  · intro s cid evs clear hs
    exact batchUpdate_storeFree cid evs clear hs

/-- Witness for C1: a `report` item routed through the partition on the empty
conversation, and preservation from the empty store. -/
theorem C1_section_partition_witness :
    ((handleChatItemEventConv emptyConversation
        { chunkItem "x" with component_type := some "report" } .append).threads =
      (ensureThreadTask emptyConversation "t" "k").threads ∧
     lookupEntry
        ((lookupEntry (handleChatItemEventConv emptyConversation
            { chunkItem "x" with component_type := some "report" } .append).sections
          "report").getD emptyThread).tasks "k" =
       some (addOrUpdateItem emptyTask
         { chunkItem "x" with component_type := some "report" } .append)) ∧
    StoreFree (updateAgentConversationsStore []
      { event := "message",
        data := { item_id := "i", conversation_id := "c", thread_id := "t",
                  task_id := "k" } }) :=
  ⟨C1_section_partition.1 emptyConversation
      { chunkItem "x" with component_type := some "report" } .append rfl,
   C1_section_partition.2.2.1 []
      { event := "message",
        data := { item_id := "i", conversation_id := "c", thread_id := "t",
                  task_id := "k" } }
      (by intro e he; simp at he)⟩

/-! ## C8 -/

/-- Counterexample to C8 as stated: two `report` items delivered under
distinct `task_id`s produce, inside the single `sections["report"]` entry,
two distinct `Task` containers — not a single Task regardless of `task_id`. -/
theorem C8_one_task_counterexample :
    ((lookupEntry ((lookupEntry twoReportStore "c1").getD emptyConversation).sections
        "report").getD emptyThread).tasks.map Prod.fst = ["k1", "k2"] ∧
    ¬ ((lookupEntry ((lookupEntry twoReportStore "c1").getD emptyConversation).sections
        "report").getD emptyThread).tasks.length ≤ 1 := by
  constructor
  · rfl
  · intro h
    have h2 : ((lookupEntry ((lookupEntry twoReportStore "c1").getD
        emptyConversation).sections "report").getD emptyThread).tasks.length = 2 := rfl
    rw [h2] at h
    omega

theorem ensureThreadTask_convSectionsNodup {c : ConversationView} (tid kid : String)
    (hc : ConvSectionsNodup c) : ConvSectionsNodup (ensureThreadTask c tid kid) := hc

theorem handleChatItemEventConv_convSectionsNodup {c : ConversationView}
    {data : ChatItem} (mode : MergeMode) (hc : ConvSectionsNodup c) :
    ConvSectionsNodup (handleChatItemEventConv c data mode) := by
  unfold handleChatItemEventConv
  split
  · unfold ConvSectionsNodup
    simp only
    exact nodup_keys_setEntry _ _ hc
  · exact hc

theorem processConvEvent_convSectionsNodup {c : ConversationView} (sse : SSEData)
    (hc : ConvSectionsNodup c) : ConvSectionsNodup (processConvEvent c sse) := by
  unfold processConvEvent
  dsimp only
  split
  · split <;> exact handleChatItemEventConv_convSectionsNodup _ hc
  · split
    · exact handleChatItemEventConv_convSectionsNodup _ hc
    · split
      · exact handleChatItemEventConv_convSectionsNodup _ hc
      · split
        · exact handleChatItemEventConv_convSectionsNodup _ hc
        · split
          · exact hc
          · split
            · exact handleChatItemEventConv_convSectionsNodup _ hc
            · exact hc

theorem processSSEEvent_sectionsNodup {s : AgentConversationsStore} (sse : SSEData)
    (hs : SectionsNodup s) : SectionsNodup (processSSEEvent s sse) := by
  unfold processSSEEvent
  split
  · intro e he
    rcases mem_modifyEntry he with h | h
    · subst h
      refine processConvEvent_convSectionsNodup sse ?_
      cases hl : lookupEntry s sse.data.conversation_id with
      | none =>
        simp only [Option.getD_none]
        exact List.nodup_nil
      | some cv =>
        obtain ⟨k2, hmem⟩ := lookupEntry_mem hl
        simp only [Option.getD_some]
        exact hs (k2, cv) hmem
    · exact hs e h
  · exact hs

theorem foldl_processSSEEvent_sectionsNodup {s : AgentConversationsStore}
    (evs : List SSEData) (hs : SectionsNodup s) :
    SectionsNodup (evs.foldl processSSEEvent s) := by
  induction evs generalizing s with
  | nil => exact hs
  | cons e rest ih => exact ih (processSSEEvent_sectionsNodup e hs)

theorem batchUpdate_sectionsNodup {s : AgentConversationsStore} (cid : String)
    (evs : List SSEData) (clear : Bool) (hs : SectionsNodup s) :
    SectionsNodup (batchUpdateAgentConversationsStore s cid evs clear) := by
  unfold batchUpdateAgentConversationsStore
  have h1 : SectionsNodup (if clear && (lookupEntry s cid).isSome then
      eraseEntry s cid else s) := by
    split
    · intro e he
      exact hs e (List.mem_filter.mp he).1
    · exact hs
  have h2 := foldl_processSSEEvent_sectionsNodup evs h1
  dsimp only
  split
  · exact h2
  · next conv hconv =>
    intro e he
    rcases mem_setEntry he with h | h
    · subst h
      obtain ⟨k2, hmem⟩ := lookupEntry_mem hconv
      exact h2 (k2, conv) hmem
    · exact h2 e h

/-- C8, amended: the sections container of a conversation maps each
section-worthy kind to at most one entry (a single per-kind container) in
every store reachable from one with that property — but that single entry
internally holds one Task per distinct `task_id` that has delivered items of
the kind (so distinct `task_id`s do produce distinct Task containers). -/
theorem C8_sections_amended :
    (∀ (conversation : ConversationView) (data : ChatItem) (mode : MergeMode),
        isSectionWorthy data.component_type = true →
        (lookupEntry ((lookupEntry
            (handleChatItemEventConv conversation data mode).sections
            (data.component_type.getD "")).getD emptyThread).tasks
          data.task_id).isSome = true) ∧
    (∀ (s : AgentConversationsStore) (sse : SSEData),
        SectionsNodup s → SectionsNodup (updateAgentConversationsStore s sse)) ∧
    (∀ (s : AgentConversationsStore) (cid : String) (evs : List SSEData) (clear : Bool),
        SectionsNodup s →
        SectionsNodup (batchUpdateAgentConversationsStore s cid evs clear)) := by
  refine ⟨?_, ?_, ?_⟩
  · intro conversation data mode hsec
    simp [handleChatItemEventConv, hsec, lookup_modifyEntry_self]
  · intro s sse hs
    exact processSSEEvent_sectionsNodup sse hs
  · intro s cid evs clear hs
    exact batchUpdate_sectionsNodup cid evs clear hs

/-- Witness for the amended C8: a concrete `report` item creates its
per-task section Task, and uniqueness of section kinds is preserved from the
empty store. -/
theorem C8_sections_amended_witness :
    (lookupEntry ((lookupEntry
        (handleChatItemEventConv emptyConversation
          { chunkItem "y" with component_type := some "report" } .replace).sections
        "report").getD emptyThread).tasks "k").isSome = true ∧
    SectionsNodup (updateAgentConversationsStore [] (reportEvent "k1" "i1")) :=
  ⟨C8_sections_amended.1 emptyConversation
      { chunkItem "y" with component_type := some "report" } .replace rfl,
   C8_sections_amended.2.1 [] (reportEvent "k1" "i1")
      (by intro e he; simp at he)⟩

/-! ## C6 -/

/-- Counterexample to C6 as stated: replaying (with `clearHistory = true`) a
single generated-component event of `reasoning` kind whose content does not
deserialize leaves that reasoning item *not* forced complete — the final
completion pass skips unparseable content instead of wrapping it the way
`markReasoningComplete` would.  (The prior state of `c1` is indeed cleared:
only thread `t1` remains.) -/
theorem C6_forced_complete_counterexample :
    ((getTask? (batchUpdateAgentConversationsStore preC6Store "c1" [cgReasoningEvent] true)
        "c1" "t1" "k1").map (fun t => t.items.map (fun it =>
          (it.component_type, contentMarkedComplete (itemContent it)))) =
      some [(some "reasoning", false)]) ∧
    ((lookupEntry (batchUpdateAgentConversationsStore preC6Store "c1" [cgReasoningEvent] true)
        "c1").map (fun conversation => conversation.threads.map Prod.fst) =
      some ["t1"]) := by
  constructor
  · rfl
  · rfl

theorem processSSEEvent_lookup_eq {s₁ s₂ : AgentConversationsStore} (sse : SSEData)
    (cid : String) (h : lookupEntry s₁ cid = lookupEntry s₂ cid) :
    lookupEntry (processSSEEvent s₁ sse) cid =
      lookupEntry (processSSEEvent s₂ sse) cid := by
  unfold processSSEEvent
  cases hrec : RECOGNIZED_EVENT_KINDS.contains sse.event with
  | false => simpa [hrec] using h
  | true =>
    simp only [hrec, if_true]
    by_cases hk : sse.data.conversation_id = cid
    · subst hk
      rw [lookup_modifyEntry_self, lookup_modifyEntry_self, h]
    · rw [lookup_modifyEntry_ne _ _ _ _ _ hk, lookup_modifyEntry_ne _ _ _ _ _ hk]
      exact h

theorem foldl_lookup_eq (evs : List SSEData) (s₁ s₂ : AgentConversationsStore)
    (cid : String) (h : lookupEntry s₁ cid = lookupEntry s₂ cid) :
    lookupEntry (evs.foldl processSSEEvent s₁) cid =
      lookupEntry (evs.foldl processSSEEvent s₂) cid := by
  induction evs generalizing s₁ s₂ with
  | nil => exact h
  | cons e rest ih => exact ih _ _ (processSSEEvent_lookup_eq e cid h)

theorem lookup_clear_draft_none (store : AgentConversationsStore) (cid : String) :
    lookupEntry (if true && (lookupEntry store cid).isSome then eraseEntry store cid
      else store) cid = none := by
  cases hs : lookupEntry store cid with
  | none => simp [hs]
  | some v => simp [hs, lookup_eraseEntry_self]

theorem lookup_finalize {f : ConversationView → ConversationView}
    (D : AgentConversationsStore) (cid : String) :
    lookupEntry (match lookupEntry D cid with
      | none => D
      | some conversation => setEntry D cid (f conversation)) cid =
      (lookupEntry D cid).map f := by
  cases hL : lookupEntry D cid with
  | none => simp [hL]
  | some conversation => simp [lookup_setEntry_self]

theorem lookup_batch_result (store : AgentConversationsStore) (cid : String)
    (evs : List SSEData) (clear : Bool) :
    lookupEntry (batchUpdateAgentConversationsStore store cid evs clear) cid =
      (lookupEntry (evs.foldl processSSEEvent
          (if clear && (lookupEntry store cid).isSome then eraseEntry store cid
           else store)) cid).map
        (fun conversation => { conversation with
          threads := conversation.threads.map (fun te =>
            (te.1, { tasks := te.2.tasks.map (fun ke =>
                       (ke.1, markAllReasoningComplete ke.2)) })) }) := by
  unfold batchUpdateAgentConversationsStore
  exact lookup_finalize _ cid

theorem itemContent_setItemContent {x : ChatItem} (c : Content)
    (h : hasContent x = true) :
    itemContent (markReasoningComplete.setItemContent x c) = c := by
  unfold markReasoningComplete.setItemContent
  cases hp : x.payload with
  | none => simp [hasContent, hp] at h
  | some p => simp [itemContent]

theorem markAllReasoningComplete_post (t : TaskView) :
    ∀ it ∈ (markAllReasoningComplete t).items,
      it.component_type = some "reasoning" → hasContent it = true →
      ∀ p, (itemContent it).parse = some p → p.isComplete = some true := by
  intro it hit hkind hc p hp
  unfold markAllReasoningComplete at hit
  simp only [List.mem_map] at hit
  obtain ⟨x, hx, hmapped⟩ := hit
  subst hmapped
  cases hguard : (x.component_type == some "reasoning" && hasContent x) with
  | false =>
    simp only [hguard, Bool.false_eq_true, if_false] at hkind hc hp
    simp [hkind, hc] at hguard
  | true =>
    have hcx : hasContent x = true := by
      simp only [Bool.and_eq_true] at hguard
      exact hguard.2
    simp only [hguard, if_true] at hkind hc hp
    cases hparse : (itemContent x).parse with
    | none =>
      simp only [hparse] at hp
      exact absurd hp (by simp [hparse])
    | some parsed =>
      simp only [hparse] at hkind hc hp
      cases hcomp : parsed.isComplete.getD false with
      | false =>
        simp only [hcomp, Bool.not_false, if_true] at hp
        rw [itemContent_setItemContent _ hcx, parse_ofRecord] at hp
        cases hp
        rfl
      | true =>
        simp only [hcomp, Bool.not_true, Bool.false_eq_true, if_false] at hp
        rw [hparse] at hp
        cases hp
        cases hcb : p.isComplete with
        | none => simp [hcb] at hcomp
        | some b =>
          simp only [hcb, Option.getD_some] at hcomp
          rw [hcomp]

theorem markAllReasoningComplete_skips_unparsed (t : TaskView) (i : Nat)
    (it : ChatItem) (hget : t.items.get? i = some it)
    (hp : (itemContent it).parse = none) :
    (markAllReasoningComplete t).items.get? i = some it := by
  unfold markAllReasoningComplete
  rw [List.get?_eq_getElem?] at hget ⊢
  simp only [List.getElem?_map, hget, Option.map_some']
  cases hguard : (it.component_type == some "reasoning" && hasContent it) with
  | false => simp [hguard]
  | true => simp [hguard, hp]

/-- C6, amended: with `clearHistory = true` the conversation's prior state is
deleted and the events replayed in order, so the resulting conversation is
exactly the one the event list alone produces (locality).  After the replay,
every reasoning-kind item whose payload content deserializes carries
`isComplete: true`; but a reasoning item whose content fails to parse is
skipped by the completion pass (left unchanged) rather than being wrapped the
way `markReasoningComplete` would wrap it. -/
theorem C6_batch_clear_amended :
    (∀ (store : AgentConversationsStore) (cid : String) (evs : List SSEData),
        lookupEntry (batchUpdateAgentConversationsStore store cid evs true) cid =
          lookupEntry (batchUpdateAgentConversationsStore [] cid evs true) cid) ∧
    (∀ (store : AgentConversationsStore) (cid : String) (evs : List SSEData)
        (clear : Bool) (conversation : ConversationView),
        lookupEntry (batchUpdateAgentConversationsStore store cid evs clear) cid =
          some conversation →
        ∀ te ∈ conversation.threads, ∀ ke ∈ te.2.tasks, ∀ it ∈ ke.2.items,
          it.component_type = some "reasoning" → hasContent it = true →
          ∀ p, (itemContent it).parse = some p → p.isComplete = some true) ∧
    (∀ (t : TaskView) (i : Nat) (it : ChatItem),
        t.items.get? i = some it → (itemContent it).parse = none →
        (markAllReasoningComplete t).items.get? i = some it) := by
  refine ⟨?_, ?_, markAllReasoningComplete_skips_unparsed⟩
  · intro store cid evs
    rw [lookup_batch_result, lookup_batch_result]
    have h0 : lookupEntry (if true && (lookupEntry store cid).isSome then
          eraseEntry store cid else store) cid =
        lookupEntry (if true && (lookupEntry ([] : AgentConversationsStore) cid).isSome
          then eraseEntry [] cid else ([] : AgentConversationsStore)) cid := by
      rw [lookup_clear_draft_none, lookup_clear_draft_none]
    rw [foldl_lookup_eq evs _ _ cid h0]
  · intro store cid evs clear conversation h
    rw [lookup_batch_result] at h
    rw [Option.map_eq_some'] at h
    obtain ⟨conv₀, hc0, hconv⟩ := h
    subst hconv
    intro te hte
    simp only at hte
    rcases List.mem_map.mp hte with ⟨te₀, hte₀, hmap⟩
    subst hmap
    intro ke hke
    simp only at hke
    rcases List.mem_map.mp hke with ⟨ke₀, hke₀, hmap2⟩
    subst hmap2
    intro it hit hkind hc p hp
    exact markAllReasoningComplete_post ke₀.2 it hit hkind hc p hp

/-- Witness for the amended C6: the completion pass skips a raw markdown-ish
content, and batch-with-clear locality at a concrete store. -/
theorem C6_batch_clear_amended_witness :
    (markAllReasoningComplete { items := [chunkItem "w"] }).items.get? 0 =
      some (chunkItem "w") ∧
    lookupEntry (batchUpdateAgentConversationsStore preC6Store "c1"
        [cgReasoningEvent] true) "c1" =
      lookupEntry (batchUpdateAgentConversationsStore [] "c1"
        [cgReasoningEvent] true) "c1" :=
  ⟨C6_batch_clear_amended.2.2 { items := [chunkItem "w"] } 0 (chunkItem "w") rfl rfl,
   C6_batch_clear_amended.1 preC6Store "c1" [cgReasoningEvent]⟩
